import Mathlib

set_option maxRecDepth 100000

/-!
Verification development for the color-subtraction data generator
(src/src/generator.py).  The Python source is shallowly embedded below:
pure arithmetic becomes functions on ℤ and ℚ, IEEE-754 floating point
(Python floats are binary64, numpy float32 arrays are binary32) is modelled
exactly as round-to-nearest-ties-to-even rounding on ℚ, the random stream
consumed by random.randint becomes an explicit input stream, and raster
frames become functions from integer pixel coordinates to RGB triples.

The library addition, subtraction, multiplication and division on ℚ are
irreducible, which blocks kernel evaluation of concrete instances, so the
embedding uses the kernel-computable wrappers qadd, qsub, qmul, qdiv, qabs
and q2pow defined below; the bridge lemmas qadd_eq, qsub_eq, qmul_eq,
qdiv_eq, qabs_eq and q2pow_eq prove each wrapper extensionally equal to the
corresponding library operation, so the wrappers introduce no semantic
difference with exact rational arithmetic.
-/

/-- Kernel-computable addition on ℚ (see qadd_eq). -/
def qadd (a b : ℚ) : ℚ := Rat.divInt (a.num * b.den + b.num * a.den) (a.den * b.den)

/-- Kernel-computable negation on ℚ (see qneg_eq). -/
def qneg (a : ℚ) : ℚ := Rat.divInt (-a.num) a.den

/-- Kernel-computable subtraction on ℚ (see qsub_eq). -/
def qsub (a b : ℚ) : ℚ := qadd a (qneg b)

/-- Kernel-computable multiplication on ℚ (see qmul_eq). -/
def qmul (a b : ℚ) : ℚ := Rat.divInt (a.num * b.num) ((a.den : ℤ) * b.den)

/-- Kernel-computable division on ℚ (see qdiv_eq). -/
def qdiv (a b : ℚ) : ℚ := Rat.divInt (a.num * b.den) ((a.den : ℤ) * b.num)

/-- Kernel-computable absolute value on ℚ (see qabs_eq). -/
def qabs (a : ℚ) : ℚ := if a < 0 then qneg a else a

/-- Kernel-computable integer power of two on ℚ (see q2pow_eq). -/
def q2pow (k : ℤ) : ℚ := if 0 ≤ k then ((2 ^ k.toNat : ℤ) : ℚ) else Rat.divInt 1 (2 ^ (-k).toNat)

theorem qadd_eq (a b : ℚ) : qadd a b = a + b := by
  have ha : ((a.den : ℚ)) ≠ 0 := by exact_mod_cast a.den_ne_zero
  have hb : ((b.den : ℚ)) ≠ 0 := by exact_mod_cast b.den_ne_zero
  rw [qadd, Rat.divInt_eq_div]
  conv_rhs => rw [← Rat.num_div_den a, ← Rat.num_div_den b]
  rw [div_add_div _ _ ha hb]
  push_cast
  ring_nf

theorem qneg_eq (a : ℚ) : qneg a = -a := by
  have ha : ((a.den : ℚ)) ≠ 0 := by exact_mod_cast a.den_ne_zero
  rw [qneg, Rat.divInt_eq_div]
  conv_rhs => rw [← Rat.num_div_den a]
  push_cast
  field_simp

theorem qsub_eq (a b : ℚ) : qsub a b = a - b := by
  rw [qsub, qadd_eq, qneg_eq, sub_eq_add_neg]

theorem qmul_eq (a b : ℚ) : qmul a b = a * b := by
  have ha : ((a.den : ℚ)) ≠ 0 := by exact_mod_cast a.den_ne_zero
  have hb : ((b.den : ℚ)) ≠ 0 := by exact_mod_cast b.den_ne_zero
  rw [qmul, Rat.divInt_eq_div]
  conv_rhs => rw [← Rat.num_div_den a, ← Rat.num_div_den b]
  push_cast
  field_simp

theorem qdiv_eq (a b : ℚ) : qdiv a b = a / b := by
  rcases eq_or_ne b 0 with hb0 | hb0
  · subst hb0
    simp [qdiv, Rat.divInt_eq_div]
  · have ha : ((a.den : ℚ)) ≠ 0 := by exact_mod_cast a.den_ne_zero
    have hd : ((b.den : ℚ)) ≠ 0 := by exact_mod_cast b.den_ne_zero
    have hn : ((b.num : ℚ)) ≠ 0 := by exact_mod_cast Rat.num_ne_zero.mpr hb0
    rw [qdiv, Rat.divInt_eq_div]
    conv_rhs => rw [← Rat.num_div_den a, ← Rat.num_div_den b]
    push_cast
    field_simp

theorem qabs_eq (a : ℚ) : qabs a = |a| := by
  rw [qabs]
  split
  · next h => rw [qneg_eq, abs_of_neg h]
  · next h => rw [abs_of_nonneg (not_lt.mp h)]

theorem q2pow_eq (k : ℤ) : q2pow k = (2 : ℚ) ^ k := by
  rw [q2pow]
  split
  · next h =>
    push_cast
    rw [← zpow_natCast, Int.toNat_of_nonneg h]
  · next h =>
    rw [Rat.divInt_eq_div]
    push_cast
    rw [one_div, ← zpow_natCast, ← zpow_neg]
    congr 1
    omega

/-- Round a rational to the nearest integer, ties to even
(the tie-breaking rule of IEEE-754 round-to-nearest). -/
def rhe (x : ℚ) : ℤ :=
  let f := Rat.floor x
  let r := qsub x (f : ℚ)
  if r < qdiv 1 2 then f
  else if qdiv 1 2 < r then f + 1
  else if f % 2 = 0 then f else f + 1

/-- Fuelled base-2 floor logarithm on ℕ, structurally recursive so that the
kernel can evaluate it on concrete inputs. -/
def nlog2 : ℕ → ℕ → ℕ
  | 0, _ => 0
  | f + 1, n => if n < 2 then 0 else nlog2 f (n / 2) + 1

/-- Base-2 floor logarithm of a natural number (0 at 0). -/
def natLog2 (n : ℕ) : ℕ := nlog2 n n

/-- The binary exponent of a nonzero rational: the unique e with
2 ^ e ≤ |q| < 2 ^ (e + 1), computed from the bit lengths of numerator and
denominator (see qexp_spec below). -/
def qexp (q : ℚ) : ℤ :=
  let e0 : ℤ := (natLog2 q.num.natAbs : ℤ) - (natLog2 q.den : ℤ)
  if q2pow e0 ≤ qabs q then e0 else e0 - 1

/-- Round a rational to the nearest binary floating-point number with p
significant bits, round-to-nearest ties-to-even.  This is exactly the IEEE-754
binary rounding of a real result applied in the normal range; every value
arising in this development is far from overflow and underflow, so each
float operation of the source is modelled as rnd applied to the exact result
of the operation, which is how IEEE-754 defines the operation itself. -/
def rnd (p : ℕ) (q : ℚ) : ℚ :=
  if q = 0 then 0
  else
    let ulp : ℚ := q2pow (qexp q - p + 1)
    qmul (qmul (if q < 0 then -1 else 1) (rhe (qdiv (qabs q) ulp) : ℚ)) ulp

/-- Python float arithmetic: IEEE-754 binary64 (53 significant bits). -/
def f64 (q : ℚ) : ℚ := rnd 53 q

/-- numpy float32 arithmetic: IEEE-754 binary32 (24 significant bits). -/
def f32 (q : ℚ) : ℚ := rnd 24 q

/-- Truncation toward zero: the semantics of the Python int() conversion and
of the C cast performed by numpy astype. -/
def truncInt (q : ℚ) : ℤ := if q < 0 then -Rat.floor (qneg q) else Rat.floor q

/-- Conversion of a float value to uint8 as performed by astype(np.uint8):
truncate toward zero, reduce modulo 256 (every value cast in the source lies
in [0, 256), where the cast is exact). -/
def toUint8 (q : ℚ) : ℤ := truncInt q % 256

/-- An RGB triple; the source keeps channels as Python ints. -/
abbrev Color := ℤ × ℤ × ℤ

/-- Channel-wise additive sums of two colors, generator.py lines 92 to 94:
additive_r = color1[0] + color2[0], and likewise for g and b.
Python ints are arbitrary precision, so the sums (up to 510 here) are exact. -/
def additive (c1 c2 : Color) : Color :=
  (c1.1 + c2.1, c1.2.1 + c2.2.1, c1.2.2 + c2.2.2)

/-- max_value = max(additive_r, additive_g, additive_b), line 97. -/
def maxValue (s : Color) : ℤ := max (max s.1 s.2.1) s.2.2

/-- One normalized channel of the scaled branch, lines 100 to 103:
scale = 255.0 / max_value (binary64 division of exact operands), then
int(additive * scale) (binary64 product, truncated toward zero). -/
def normalizedChan (m s : ℤ) : ℤ := truncInt (f64 (qmul (s : ℚ) (f64 (qdiv 255 (m : ℚ)))))

/-- The normalized triple, lines 96 to 107: if the maximum sum exceeds 255
every channel is scaled by 255.0/max_value and truncated, otherwise the sums
are kept unchanged (int() of a Python int is the identity). -/
def normalized (c1 c2 : Color) : Color :=
  if 255 < maxValue (additive c1 c2) then
    (normalizedChan (maxValue (additive c1 c2)) (additive c1 c2).1,
     normalizedChan (maxValue (additive c1 c2)) (additive c1 c2).2.1,
     normalizedChan (maxValue (additive c1 c2)) (additive c1 c2).2.2)
  else additive c1 c2

/-- The per-task subtractive mixed color, lines 109 to 114:
mixed_c = 255 - normalized_c for each channel. -/
def mixedColor (c1 c2 : Color) : Color :=
  (255 - (normalized c1 c2).1, 255 - (normalized c1 c2).2.1, 255 - (normalized c1 c2).2.2)

/-- The float32 scale factor used by the overlap grid, lines 330 to 333:
scale_factor is 1.0 except where max_per_pixel exceeds 255, where it is the
binary32 quotient 255.0 / max_per_pixel. -/
def gridScale (m : ℤ) : ℚ := if 255 < m then f32 (qdiv 255 (m : ℚ)) else 1

/-- One normalized channel of the float32 overlap grid, lines 336 to 338:
the binary32 product of the additive sum with the scale factor, cast to
uint8 by astype. -/
def gridNormalizedChan (m s : ℤ) : ℤ := toUint8 (f32 (qmul (s : ℚ) (gridScale m)))

/-- The color the overlap-grid computation of lines 318 to 348 assigns to a
pixel of the intersection, as a closed function of the two input colors:
255 minus the float32-normalized channel.  This is the float32 counterpart
of mixedColor, which works in binary64; see overlapArray below for the
pixelwise derivation. -/
def gridMixed (c1 c2 : Color) : Color :=
  (255 - gridNormalizedChan (maxValue (additive c1 c2)) (additive c1 c2).1,
   255 - gridNormalizedChan (maxValue (additive c1 c2)) (additive c1 c2).2.1,
   255 - gridNormalizedChan (maxValue (additive c1 c2)) (additive c1 c2).2.2)

/-- The configuration surface consumed by the generator (owned by the
caller; src/src/config.py is not part of the sources, so the fields are
kept abstract): image_size = (width, height), edge_margin, ball_radius,
min_distance, generate_videos. -/
structure Config where
  width : ℤ
  height : ℤ
  edge_margin : ℤ
  ball_radius : ℤ
  min_distance : ℤ
  generate_videos : Bool
deriving DecidableEq

/-- Squared Euclidean distance between two integer points.  The source
compares math.sqrt((x2-x1)**2 + (y2-y1)**2) >= min_dist (line 130); for
integer coordinates of magnitude below 2^26 and a nonnegative integer
min_dist this is exactly equivalent to comparing squares: math.sqrt is
correctly rounded, and the rounded square root of an integer n crosses the
integer boundary m only if the difference between n and m^2 is below one,
which forces n = m^2.  The comparison is therefore embedded exactly as
min_dist^2 <= distSq. -/
def distSq (p q : ℤ × ℤ) : ℤ := (q.1 - p.1) ^ 2 + (q.2 - p.2) ^ 2

/-- Acceptance test of one sampling attempt, lines 129 to 131. -/
def acceptAttempt (cfg : Config) (a : (ℤ × ℤ) × (ℤ × ℤ)) : Bool :=
  decide (cfg.min_distance ^ 2 ≤ distSq a.1 a.2)

/-- The deterministic fallback layout, lines 146 to 150:
x1 = width // 4, y1 = height // 2, x2 = 3 * width // 4, y2 = height // 2
(Python // is floor division, Int.fdiv). -/
def fallbackPositions (cfg : Config) : (ℤ × ℤ) × (ℤ × ℤ) :=
  ((Int.fdiv cfg.width 4, Int.fdiv cfg.height 2),
   (Int.fdiv (3 * cfg.width) 4, Int.fdiv cfg.height 2))

/-- The bounded rejection-sampling loop, lines 122 to 150: up to 100
attempts are drawn from the random stream; the first attempt whose centers
are at least min_distance apart is returned, and the fallback layout is
returned when all 100 attempts fail.  The random draws (x1, y1, x2, y2) of
each iteration are supplied by the stream draws. -/
def samplePositions (cfg : Config) (draws : ℕ → (ℤ × ℤ) × (ℤ × ℤ)) : (ℤ × ℤ) × (ℤ × ℤ) :=
  match (List.range 100).find? (fun i => acceptAttempt cfg (draws i)) with
  | some i => draws i
  | none => fallbackPositions cfg

/-- The exact midpoint coordinate, lines 133, 134, 151, 152:
(a + b) / 2 with Python true division, i.e. the binary64 value of the exact
half (which is exact for the coordinate magnitudes of any real canvas). -/
def midCoord (a b : ℤ) : ℚ := f64 (qdiv (((a + b : ℤ)) : ℚ) 2)

/-- The task record built by _generate_task_data, lines 74 to 162.  The
field ttype embeds the key "type" of the Python dict. -/
structure TaskData where
  color1 : Color
  color2 : Color
  mixed_color : Color
  ball1_pos : ℤ × ℤ
  ball2_pos : ℤ × ℤ
  final_pos : ℚ × ℚ
  ttype : String

/-- _generate_task_data, lines 74 to 162, with the six random channel draws
(color1, color2) and the position attempt stream supplied explicitly.  Both
the accepted branch and the fallback branch produce the same record shape:
colors, the precomputed mixed color, the two centers and their midpoint. -/
def generateTaskData (cfg : Config) (c1 c2 : Color)
    (draws : ℕ → (ℤ × ℤ) × (ℤ × ℤ)) : TaskData :=
  let pos := samplePositions cfg draws
  { color1 := c1
    color2 := c2
    mixed_color := mixedColor c1 c2
    ball1_pos := pos.1
    ball2_pos := pos.2
    final_pos := (midCoord pos.1.1 pos.2.1, midCoord pos.1.2 pos.2.2)
    ttype := "default" }

/-- A raster frame: the RGB value at each integer pixel coordinate (x, y).
Only the canvas pixels 0 ≤ x < width, 0 ≤ y < height are meaningful.
The fixed-width black outline strokes drawn by the source on top of the
fills (lines 182, 191, 211, 354 to 369, 378, 386) are deterministic
functions of the same centers and radius and are abstracted away: no claim
below concerns the strokes, and frame-identity claims are insensitive to a
common postcomposition. -/
def Frame := ℤ × ℤ → Color

instance : Inhabited Frame := ⟨fun _ => (0, 0, 0)⟩

/-- Disk membership for an integer center: the idealised rasterisation of a
filled PIL ellipse with the bounding box of lines 176 to 181, boundary
inclusive. -/
def inDiskZ (r : ℤ) (c : ℤ × ℤ) (p : ℤ × ℤ) : Prop := distSq c p ≤ r ^ 2

instance (r : ℤ) (c p : ℤ × ℤ) : Decidable (inDiskZ r c p) := by
  unfold inDiskZ; infer_instance

/-- Disk membership for a rational center (the midpoint and interpolated
centers are floats), boundary inclusive. -/
def inDiskQ (r : ℤ) (c : ℚ × ℚ) (p : ℤ × ℤ) : Prop :=
  qadd (qmul (qsub (p.1 : ℚ) c.1) (qsub (p.1 : ℚ) c.1))
      (qmul (qsub (p.2 : ℚ) c.2) (qsub (p.2 : ℚ) c.2)) ≤ ((r ^ 2 : ℤ) : ℚ)

instance (r : ℤ) (c : ℚ × ℚ) (p : ℤ × ℤ) : Decidable (inDiskQ r c p) := by
  unfold inDiskQ; infer_instance

/-- _render_initial_state, lines 164 to 193: white background, ball 1 filled
with color1, then ball 2 filled with color2 (a later ellipse paints over an
earlier one). -/
def renderInitialState (cfg : Config) (td : TaskData) : Frame := fun p =>
  if inDiskZ cfg.ball_radius td.ball2_pos p then td.color2
  else if inDiskZ cfg.ball_radius td.ball1_pos p then td.color1
  else (255, 255, 255)

/-- _render_final_state, lines 195 to 213: white background and one disk at
the midpoint filled with the precomputed mixed color. -/
def renderFinalState (cfg : Config) (td : TaskData) : Frame := fun p =>
  if inDiskQ cfg.ball_radius td.final_pos p then td.mixed_color
  else (255, 255, 255)

/-- Interpolation progress for transition frame i, line 268:
progress = i / (transition_frames - 1) if transition_frames > 1 else 1.0.
The division of two Python ints is a binary64 true division. -/
def progress (transition_frames : ℕ) (i : ℕ) : ℚ :=
  if 1 < transition_frames then f64 (qdiv (i : ℚ) ((transition_frames : ℤ) - 1 : ℤ)) else 1

/-- Linear interpolation of one coordinate, lines 275 to 282:
start + (target - start) * progress, with every binary64 operation rounded. -/
def lerp64 (start : ℤ) (target p : ℚ) : ℚ :=
  f64 (qadd (start : ℚ) (f64 (qmul (f64 (qsub target (start : ℚ))) p)))

/-- The interpolated center of one ball at a given progress. -/
def ballCurrent (start : ℤ × ℤ) (target : ℚ × ℚ) (p : ℚ) : ℚ × ℚ :=
  (lerp64 start.1 target.1 p, lerp64 start.2 target.2 p)

/-- The squared center distance as computed by lines 285 to 288 before the
square root: binary64 squares of binary64 differences, summed in binary64.
As with distSq, comparing math.sqrt of this quantity against 2 * radius
(line 291) is embedded as the comparison with (2 * radius)^2, exact away
from correctly-rounded-square-root ties that cannot occur at the dyadic
values arising here. -/
def centerDistSq (b1 b2 : ℚ × ℚ) : ℚ :=
  f64 (qadd (f64 (qmul (f64 (qsub b2.1 b1.1)) (f64 (qsub b2.1 b1.1))))
      (f64 (qmul (f64 (qsub b2.2 b1.2)) (f64 (qsub b2.2 b1.2)))))

/-- The per-pixel squared distance of the numpy grid, lines 299 to 303,
before the square root: the integer coordinate grids minus the float center,
squared and summed, all in binary64. -/
def pixDistSq (c : ℚ × ℚ) (p : ℤ × ℤ) : ℚ :=
  f64 (qadd (f64 (qmul (f64 (qsub (p.1 : ℚ) c.1)) (f64 (qsub (p.1 : ℚ) c.1))))
      (f64 (qmul (f64 (qsub (p.2 : ℚ) c.2)) (f64 (qsub (p.2 : ℚ) c.2)))))

/-- ball1_mask and ball2_mask, lines 306 and 307: np.sqrt(dist) <= radius,
embedded as the squared comparison (see pixDistSq). -/
def ball_mask (r : ℤ) (c : ℚ × ℚ) (p : ℤ × ℤ) : Prop := pixDistSq c p ≤ ((r ^ 2 : ℤ) : ℚ)

instance (r : ℤ) (c : ℚ × ℚ) (p : ℤ × ℤ) : Decidable (ball_mask r c p) := by
  unfold ball_mask; infer_instance

/-- overlap_mask, line 308. -/
def overlap_mask (r : ℤ) (b1 b2 : ℚ × ℚ) (p : ℤ × ℤ) : Prop :=
  ball_mask r b1 p ∧ ball_mask r b2 p

instance (r : ℤ) (b1 b2 : ℚ × ℚ) (p : ℤ × ℤ) : Decidable (overlap_mask r b1 b2 p) := by
  unfold overlap_mask; infer_instance

/-- ball1_only_mask, line 309. -/
def ball1_only_mask (r : ℤ) (b1 b2 : ℚ × ℚ) (p : ℤ × ℤ) : Prop :=
  ball_mask r b1 p ∧ ¬ overlap_mask r b1 b2 p

instance (r : ℤ) (b1 b2 : ℚ × ℚ) (p : ℤ × ℤ) : Decidable (ball1_only_mask r b1 b2 p) := by
  unfold ball1_only_mask; infer_instance

/-- ball2_only_mask, line 310. -/
def ball2_only_mask (r : ℤ) (b1 b2 : ℚ × ℚ) (p : ℤ × ℤ) : Prop :=
  ball_mask r b2 p ∧ ¬ overlap_mask r b1 b2 p

instance (r : ℤ) (b1 b2 : ℚ × ℚ) (p : ℤ × ℤ) : Decidable (ball2_only_mask r b1 b2 p) := by
  unfold ball2_only_mask; infer_instance

/-- The numpy image array of the overlapping path before the outline
strokes, lines 296 to 348, evaluated at one pixel.  The array starts as
255 everywhere; the three masked assignments write color1 on
ball1_only_mask, color2 on ball2_only_mask, and the float32 mixed value on
overlap_mask.  The additive grids (lines 320 to 327) hold the exact channel
sums on the overlap mask and 0 elsewhere (sums up to 510 are exact in
float32); max_per_pixel, scale_factor and the normalized channels
(lines 329 to 343) are computed per pixel from those grids. -/
def overlapArray (r : ℤ) (c1 c2 : Color) (b1 b2 : ℚ × ℚ) : Frame := fun p =>
  let ov := overlap_mask r b1 b2 p
  let ar : ℤ := if ov then c1.1 + c2.1 else 0
  let ag : ℤ := if ov then c1.2.1 + c2.2.1 else 0
  let ab : ℤ := if ov then c1.2.2 + c2.2.2 else 0
  let max_per_pixel : ℤ := max (max ar ag) ab
  let scale : ℚ := gridScale max_per_pixel
  let nr : ℤ := toUint8 (f32 (qmul (ar : ℚ) scale))
  let ng : ℤ := toUint8 (f32 (qmul (ag : ℚ) scale))
  let nb : ℤ := toUint8 (f32 (qmul (ab : ℚ) scale))
  let base : Color := (255, 255, 255)
  let img1 : Color := if ball1_only_mask r b1 b2 p then c1 else base
  let img2 : Color := if ball2_only_mask r b1 b2 p then c2 else img1
  if ov then (255 - nr, 255 - ng, 255 - nb) else img2

/-- The separated path of a transition frame, lines 370 to 386: two filled
PIL ellipses at the interpolated float centers (ball 2 drawn second). -/
def separatedFrame (r : ℤ) (c1 c2 : Color) (b1 b2 : ℚ × ℚ) : Frame := fun p =>
  if inDiskQ r b2 p then c2
  else if inDiskQ r b1 p then c1
  else (255, 255, 255)

/-- One transition frame, lines 267 to 388: interpolate both centers toward
final_pos, then select the overlapping path (numpy grid) when the center
distance is below 2 * radius and the separated path otherwise. -/
def transitionFrame (cfg : Config) (td : TaskData) (transition_frames i : ℕ) : Frame :=
  let pr := progress transition_frames i
  let b1 := ballCurrent td.ball1_pos td.final_pos pr
  let b2 := ballCurrent td.ball2_pos td.final_pos pr
  if centerDistSq b1 b2 < (((2 * cfg.ball_radius) ^ 2 : ℤ) : ℚ) then
    overlapArray cfg.ball_radius td.color1 td.color2 b1 b2
  else
    separatedFrame cfg.ball_radius td.color1 td.color2 b1 b2

/-- _create_mixing_animation_frames, lines 237 to 395: the initial frame is
rendered once and held hold_frames times, the transition frames follow, and
the final frame is rendered once and held hold_frames times. -/
def createMixingAnimationFrames (cfg : Config) (td : TaskData)
    (hold_frames transition_frames : ℕ) : List Frame :=
  List.replicate hold_frames (renderInitialState cfg td)
    ++ (List.range transition_frames).map (transitionFrame cfg td transition_frames)
    ++ List.replicate hold_frames (renderFinalState cfg td)

/-- The output bundle of generate_task_pair, lines 60 to 68. -/
structure TaskPair where
  task_id : String
  domain : String
  prompt : String
  first_image : Frame
  final_image : Frame
  ground_truth_video : Option String

/-- _generate_video, lines 215 to 235: hand the frames to the external
encoder and return str(result) if result else None.  The encoder result is
modelled as an optional path string; the falsy results of the Python
expression are None and the empty string. -/
def generateVideo (encoderResult : Option String) : Option String :=
  match encoderResult with
  | none => none
  | some s => if s = "" then none else some s

/-- generate_task_pair, lines 41 to 68, together with the constructor
lines 32 to 39: the video generator exists only when generate_videos is set
and the encoder backend is available; the video is attempted only when
generate_videos is set and the generator exists; the still images are
rendered unconditionally.  The external prompt catalog is the function
get_prompt, applied to the task type. -/
def generateTaskPair (cfg : Config) (encoderAvailable : Bool)
    (encoderResult : Option String) (td : TaskData)
    (task_id domain : String) (get_prompt : String → String) : TaskPair :=
  let video_generator := cfg.generate_videos && encoderAvailable
  let first_image := renderInitialState cfg td
  let final_image := renderFinalState cfg td
  let video_path : Option String :=
    if cfg.generate_videos && video_generator then generateVideo encoderResult else none
  { task_id := task_id
    domain := domain
    prompt := get_prompt td.ttype
    first_image := first_image
    final_image := final_image
    ground_truth_video := video_path }

/-- Channel range predicate: every channel of c lies in [lo, hi].  The source
draws each channel with random.randint(50, 255) (lines 79 to 88). -/
def inRange (lo hi : ℤ) (c : Color) : Prop :=
  lo ≤ c.1 ∧ c.1 ≤ hi ∧ lo ≤ c.2.1 ∧ c.2.1 ≤ hi ∧ lo ≤ c.2.2 ∧ c.2.2 ≤ hi

instance (lo hi : ℤ) (c : Color) : Decidable (inRange lo hi c) := by
  unfold inRange; infer_instance

/-- Both points of one sampling attempt have coordinates in [0, B]; the
source draws them with random.randint(margin, dim - margin), so any real
attempt satisfies this for B the larger canvas dimension. -/
def coordBounded (B : ℤ) (a : (ℤ × ℤ) × (ℤ × ℤ)) : Prop :=
  0 ≤ a.1.1 ∧ a.1.1 ≤ B ∧ 0 ≤ a.1.2 ∧ a.1.2 ≤ B ∧
  0 ≤ a.2.1 ∧ a.2.1 ≤ B ∧ 0 ≤ a.2.2 ∧ a.2.2 ≤ B

instance (B : ℤ) (a : (ℤ × ℤ) × (ℤ × ℤ)) : Decidable (coordBounded B a) := by
  unfold coordBounded; infer_instance

/-! Supporting lemmas about the rounding model. -/

theorem rfloor_eq (a : ℚ) : Rat.floor a = ⌊a⌋ := by
  rw [Rat.floor_def', Rat.floor_def]

/-- rhe written with the library operations. -/
theorem rhe_def (x : ℚ) :
    rhe x = if x - ⌊x⌋ < 1/2 then ⌊x⌋
      else if 1/2 < x - ⌊x⌋ then ⌊x⌋ + 1
      else if ⌊x⌋ % 2 = 0 then ⌊x⌋ else ⌊x⌋ + 1 := by
  simp only [rhe, qsub_eq, qdiv_eq, rfloor_eq]

theorem rhe_le (x : ℚ) : (rhe x : ℚ) ≤ x + 1/2 := by
  have hf := Int.floor_le x
  rw [rhe_def]
  split
  · next h => linarith
  · next h =>
    split
    · next h2 => push_cast; linarith
    · next h2 =>
      have hr : x - ⌊x⌋ = 1/2 := le_antisymm (not_lt.mp h2) (not_lt.mp h)
      split
      · linarith
      · push_cast; linarith

theorem rhe_nonneg (x : ℚ) (h : 0 ≤ x) : 0 ≤ rhe x := by
  have hf : (0 : ℤ) ≤ ⌊x⌋ := Int.floor_nonneg.mpr h
  rw [rhe_def]
  split
  · exact hf
  · split
    · omega
    · split
      · exact hf
      · omega

theorem nlog2_spec : ∀ f n : ℕ, 0 < n → n ≤ f →
    2 ^ nlog2 f n ≤ n ∧ n < 2 ^ (nlog2 f n + 1) := by
  intro f
  induction f with
  | zero => intro n h1 h2; omega
  | succ f ih =>
    intro n h1 h2
    rw [nlog2]
    split
    · next h => constructor <;> simp <;> omega
    · next h =>
      have hrec := ih (n / 2) (by omega) (by omega)
      have h2pos : (0:ℕ) < 2 ^ nlog2 f (n / 2) := Nat.pos_pow_of_pos _ (by norm_num)
      constructor
      · calc 2 ^ (nlog2 f (n / 2) + 1) = 2 * 2 ^ nlog2 f (n / 2) := by ring
        _ ≤ 2 * (n / 2) := by omega
        _ ≤ n := by omega
      · calc n < 2 * (n / 2) + 2 := by omega
        _ ≤ 2 * 2 ^ (nlog2 f (n / 2) + 1) := by omega
        _ = 2 ^ (nlog2 f (n / 2) + 1 + 1) := by ring

theorem natLog2_spec (n : ℕ) (h : 0 < n) :
    2 ^ natLog2 n ≤ n ∧ n < 2 ^ (natLog2 n + 1) :=
  nlog2_spec n n h le_rfl

theorem qexp_spec (q : ℚ) (h : q ≠ 0) :
    (2 : ℚ) ^ qexp q ≤ |q| ∧ |q| < (2 : ℚ) ^ (qexp q + 1) := by
  have hnum : q.num ≠ 0 := Rat.num_ne_zero.mpr h
  have hna : 0 < q.num.natAbs := Int.natAbs_pos.mpr hnum
  have hden : 0 < q.den := q.pos
  obtain ⟨ha1, ha2⟩ := natLog2_spec q.num.natAbs hna
  obtain ⟨hb1, hb2⟩ := natLog2_spec q.den hden
  set a := natLog2 q.num.natAbs with hadef
  set b := natLog2 q.den with hbdef
  have hdenQ : (0 : ℚ) < (q.den : ℚ) := by exact_mod_cast hden
  have habs : |q| = (q.num.natAbs : ℚ) / (q.den : ℚ) := by
    conv_lhs => rw [← Rat.num_div_den q]
    rw [abs_div, abs_of_pos hdenQ, Int.cast_natAbs, Int.cast_abs]
  -- rational versions of the natural bounds
  have ha1Q : (2 : ℚ) ^ (a : ℤ) ≤ (q.num.natAbs : ℚ) := by
    rw [zpow_natCast]
    exact_mod_cast ha1
  have ha2Q : (q.num.natAbs : ℚ) < (2 : ℚ) ^ ((a : ℤ) + 1) := by
    have he : ((a : ℤ) + 1) = ((a + 1 : ℕ) : ℤ) := by push_cast; ring
    rw [he, zpow_natCast]
    exact_mod_cast ha2
  have hb1Q : (2 : ℚ) ^ (b : ℤ) ≤ (q.den : ℚ) := by
    rw [zpow_natCast]
    exact_mod_cast hb1
  have hb2Q : (q.den : ℚ) < (2 : ℚ) ^ ((b : ℤ) + 1) := by
    have he : ((b : ℤ) + 1) = ((b + 1 : ℕ) : ℤ) := by push_cast; ring
    rw [he, zpow_natCast]
    exact_mod_cast hb2
  have h2pos : ∀ k : ℤ, (0 : ℚ) < 2 ^ k := fun k => zpow_pos (by norm_num) k
  -- upper bound: |q| < 2 ^ (a - b + 1)
  have hupper : |q| < (2 : ℚ) ^ ((a : ℤ) - b + 1) := by
    rw [habs, div_lt_iff hdenQ]
    calc (q.num.natAbs : ℚ) < (2 : ℚ) ^ ((a : ℤ) + 1) := ha2Q
    _ = (2 : ℚ) ^ ((a : ℤ) - b + 1) * (2 : ℚ) ^ (b : ℤ) := by
        rw [← zpow_add₀ (by norm_num : (2:ℚ) ≠ 0)]; ring_nf
    _ ≤ (2 : ℚ) ^ ((a : ℤ) - b + 1) * (q.den : ℚ) := by
        exact mul_le_mul_of_nonneg_left hb1Q (le_of_lt (h2pos _))
  -- lower bound: 2 ^ (a - b - 1) ≤ |q|
  have hlower : (2 : ℚ) ^ ((a : ℤ) - b - 1) ≤ |q| := by
    rw [habs, le_div_iff hdenQ]
    calc (2 : ℚ) ^ ((a : ℤ) - b - 1) * (q.den : ℚ)
        ≤ (2 : ℚ) ^ ((a : ℤ) - b - 1) * (2 : ℚ) ^ ((b : ℤ) + 1) := by
          exact mul_le_mul_of_nonneg_left (le_of_lt hb2Q) (le_of_lt (h2pos _))
    _ = (2 : ℚ) ^ (a : ℤ) := by
        rw [← zpow_add₀ (by norm_num : (2:ℚ) ≠ 0)]; ring_nf
    _ ≤ (q.num.natAbs : ℚ) := ha1Q
  rw [qexp]
  simp only [q2pow_eq, qabs_eq, ← hadef, ← hbdef]
  split
  · next hc => exact ⟨hc, hupper⟩
  · next hc =>
    refine ⟨?_, ?_⟩
    · calc (2 : ℚ) ^ ((a : ℤ) - b - 1) ≤ |q| := hlower
      _ = |q| := rfl
    · have : (a : ℤ) - b - 1 + 1 = (a : ℤ) - b := by ring
      rw [this]
      exact not_le.mp hc

/-- rnd written with the library operations. -/
theorem rnd_def (p : ℕ) (q : ℚ) :
    rnd p q = if q = 0 then 0
      else (if q < 0 then -1 else 1) *
        (rhe (|q| / 2 ^ (qexp q - p + 1)) : ℚ) * 2 ^ (qexp q - p + 1) := by
  simp only [rnd, qmul_eq, qdiv_eq, qabs_eq, q2pow_eq]

theorem rnd_nonneg (p : ℕ) (q : ℚ) (h : 0 ≤ q) : 0 ≤ rnd p q := by
  rw [rnd_def]
  split
  · exact le_rfl
  · next hq0 =>
    rw [if_neg (not_lt.mpr h)]
    have hulp : (0 : ℚ) < 2 ^ (qexp q - p + 1) := zpow_pos (by norm_num) _
    have harg : (0 : ℚ) ≤ |q| / 2 ^ (qexp q - p + 1) :=
      div_nonneg (abs_nonneg q) (le_of_lt hulp)
    have := rhe_nonneg _ harg
    have : (0 : ℚ) ≤ (rhe (|q| / 2 ^ (qexp q - p + 1)) : ℚ) := by exact_mod_cast this
    nlinarith

theorem rnd_le_mul (p : ℕ) (q : ℚ) (h : 0 ≤ q) :
    rnd p q ≤ q * (1 + 2 ^ (-(p : ℤ))) := by
  rcases eq_or_lt_of_le h with h0 | hpos
  · rw [← h0, rnd_def]
    simp
  · have hq0 : q ≠ 0 := ne_of_gt hpos
    rw [rnd_def, if_neg hq0, if_neg (not_lt.mpr h), abs_of_pos hpos]
    set u : ℚ := 2 ^ (qexp q - p + 1) with hu
    have hulp : (0 : ℚ) < u := zpow_pos (by norm_num) _
    have hhe := rhe_le (q / u)
    have hmul := mul_le_mul_of_nonneg_right hhe (le_of_lt hulp)
    rw [add_mul, div_mul_cancel₀ _ (ne_of_gt hulp)] at hmul
    have hexp : (2 : ℚ) ^ qexp q ≤ q := by
      have hs := (qexp_spec q hq0).1
      rwa [abs_of_pos hpos] at hs
    have hhalf : 1 / 2 * u ≤ q * 2 ^ (-(p : ℤ)) := by
      have hrw : (1 / 2 : ℚ) * u = 2 ^ qexp q * 2 ^ (-(p : ℤ)) := by
        rw [hu, show (1 / 2 : ℚ) = 2 ^ (-1 : ℤ) by norm_num,
          ← zpow_add₀ (show (2 : ℚ) ≠ 0 by norm_num),
          ← zpow_add₀ (show (2 : ℚ) ≠ 0 by norm_num)]
        congr 1
        ring
      rw [hrw]
      exact mul_le_mul_of_nonneg_right hexp (le_of_lt (zpow_pos (by norm_num) _))
    calc 1 * (rhe (q / u) : ℚ) * u = (rhe (q / u) : ℚ) * u := by ring
    _ ≤ q + 1 / 2 * u := hmul
    _ ≤ q + q * 2 ^ (-(p : ℤ)) := by linarith
    _ = q * (1 + 2 ^ (-(p : ℤ))) := by ring

theorem truncInt_of_nonneg (q : ℚ) (h : 0 ≤ q) : truncInt q = ⌊q⌋ := by
  rw [truncInt, if_neg (not_lt.mpr h), rfloor_eq]

/-- One normalized channel of the scaled path stays in [0, 255]: the scale
255/m never pushes a channel sum s ≤ m above 255, even after the two
binary64 roundings, because each rounding inflates a nonnegative value by a
factor of at most 1 + 2^-53. -/
theorem normalizedChan_range (m s : ℤ) (hm : 255 < m) (hs0 : 0 < s) (hsm : s ≤ m) :
    0 ≤ normalizedChan m s ∧ normalizedChan m s ≤ 255 := by
  have hmQ : (0 : ℚ) < (m : ℚ) := by exact_mod_cast lt_trans (by norm_num) hm
  have hsQ : (0 : ℚ) ≤ (s : ℚ) := by exact_mod_cast le_of_lt hs0
  have hsmQ : (s : ℚ) ≤ (m : ℚ) := by exact_mod_cast hsm
  have heps : ((2 : ℚ)) ^ (-(53 : ℤ)) = (9007199254740992 : ℚ)⁻¹ := by
    rw [zpow_neg]
    norm_num
  unfold normalizedChan
  rw [qdiv_eq, qmul_eq]
  set y := f64 (255 / (m : ℚ)) with hydef
  have hdivpos : (0 : ℚ) ≤ 255 / (m : ℚ) := by positivity
  have hy0 : 0 ≤ y := rnd_nonneg 53 _ hdivpos
  have hyle : y ≤ 255 / (m : ℚ) * (1 + 2 ^ (-(53 : ℤ))) := rnd_le_mul 53 _ hdivpos
  set x := (s : ℚ) * y with hxdef
  have hx0 : 0 ≤ x := mul_nonneg hsQ hy0
  have hxle : x ≤ 255 * (1 + 2 ^ (-(53 : ℤ))) := by
    have h1 : x ≤ (s : ℚ) * (255 / (m : ℚ) * (1 + 2 ^ (-(53 : ℤ)))) :=
      mul_le_mul_of_nonneg_left hyle hsQ
    have h2 : (s : ℚ) * (255 / (m : ℚ)) ≤ 255 := by
      rw [mul_div_assoc']
      rw [div_le_iff hmQ]
      nlinarith
    have heps0 : (0 : ℚ) ≤ 1 + 2 ^ (-(53 : ℤ)) := by
      rw [heps]; norm_num
    have h3 : (s : ℚ) * (255 / (m : ℚ) * (1 + 2 ^ (-(53 : ℤ))))
        = (s : ℚ) * (255 / (m : ℚ)) * (1 + 2 ^ (-(53 : ℤ))) := by ring
    have h4 : (s : ℚ) * (255 / (m : ℚ)) * (1 + 2 ^ (-(53 : ℤ)))
        ≤ 255 * (1 + 2 ^ (-(53 : ℤ))) := mul_le_mul_of_nonneg_right h2 heps0
    exact le_trans h1 (le_trans (le_of_eq h3) h4)
  set z := f64 x with hzdef
  have hz0 : 0 ≤ z := rnd_nonneg 53 _ hx0
  have hzle : z ≤ x * (1 + 2 ^ (-(53 : ℤ))) := rnd_le_mul 53 _ hx0
  have hz256 : z < 256 := by
    have h1 : x * (1 + 2 ^ (-(53 : ℤ))) ≤ 255 * (1 + 2 ^ (-(53 : ℤ))) * (1 + 2 ^ (-(53 : ℤ))) := by
      have heps0 : (0 : ℚ) ≤ 1 + 2 ^ (-(53 : ℤ)) := by
        rw [heps]; norm_num
      nlinarith
    have h2 : (255 : ℚ) * (1 + 2 ^ (-(53 : ℤ))) * (1 + 2 ^ (-(53 : ℤ))) < 256 := by
      rw [heps]
      norm_num
    linarith
  rw [truncInt_of_nonneg _ hz0]
  constructor
  · exact Int.floor_nonneg.mpr hz0
  · have : ⌊z⌋ < 256 := Int.floor_lt.mpr (by exact_mod_cast hz256)
    omega

/-- C7: for colors with channels in [50, 255] the additive sums lie in
[100, 510] (held exactly: Python ints do not overflow, embedded as ℤ), every
channel of the mixed output lies in [0, 255], and the computation applies no
clamping (mixedColor is literally 255 minus the normalized channel, whose
range is established arithmetically, not by clipping). -/
theorem le_maxValue_r (s : Color) : s.1 ≤ maxValue s :=
  le_trans (le_max_left _ _) (le_max_left _ _)

theorem le_maxValue_g (s : Color) : s.2.1 ≤ maxValue s :=
  le_trans (le_max_right _ _) (le_max_left _ _)

theorem le_maxValue_b (s : Color) : s.2.2 ≤ maxValue s := le_max_right _ _

/-- C7: for colors with channels in [50, 255] the additive sums lie in
[100, 510] (held exactly: Python ints do not overflow, embedded as ℤ), every
channel of the mixed output lies in [0, 255], and the computation applies no
clamping (mixedColor is literally 255 minus the normalized channel, whose
range is established arithmetically, not by clipping). -/
theorem mixedColor_range (c1 c2 : Color)
    (h1 : inRange 50 255 c1) (h2 : inRange 50 255 c2) :
    (100 ≤ (additive c1 c2).1 ∧ (additive c1 c2).1 ≤ 510) ∧
    (100 ≤ (additive c1 c2).2.1 ∧ (additive c1 c2).2.1 ≤ 510) ∧
    (100 ≤ (additive c1 c2).2.2 ∧ (additive c1 c2).2.2 ≤ 510) ∧
    inRange 0 255 (mixedColor c1 c2) := by
  obtain ⟨a1, a2, a3, a4, a5, a6⟩ := h1
  obtain ⟨b1, b2, b3, b4, b5, b6⟩ := h2
  have hs1 : (additive c1 c2).1 = c1.1 + c2.1 := rfl
  have hs2 : (additive c1 c2).2.1 = c1.2.1 + c2.2.1 := rfl
  have hs3 : (additive c1 c2).2.2 = c1.2.2 + c2.2.2 := rfl
  refine ⟨⟨by omega, by omega⟩, ⟨by omega, by omega⟩, ⟨by omega, by omega⟩, ?_⟩
  rcases lt_or_le 255 (maxValue (additive c1 c2)) with hscale | hscale
  · have hr := normalizedChan_range _ _ hscale
      (show 0 < (additive c1 c2).1 by omega) (le_maxValue_r _)
    have hg := normalizedChan_range _ _ hscale
      (show 0 < (additive c1 c2).2.1 by omega) (le_maxValue_g _)
    have hb := normalizedChan_range _ _ hscale
      (show 0 < (additive c1 c2).2.2 by omega) (le_maxValue_b _)
    have hn : normalized c1 c2 =
        (normalizedChan (maxValue (additive c1 c2)) (additive c1 c2).1,
         normalizedChan (maxValue (additive c1 c2)) (additive c1 c2).2.1,
         normalizedChan (maxValue (additive c1 c2)) (additive c1 c2).2.2) := by
      unfold normalized
      rw [if_pos hscale]
    obtain ⟨hr0, hr1⟩ := hr
    obtain ⟨hg0, hg1⟩ := hg
    obtain ⟨hb0, hb1⟩ := hb
    unfold mixedColor inRange
    rw [hn]
    dsimp only
    refine ⟨?_, ?_, ?_, ?_, ?_, ?_⟩ <;> omega
  · have hM1 := le_maxValue_r (additive c1 c2)
    have hM2 := le_maxValue_g (additive c1 c2)
    have hM3 := le_maxValue_b (additive c1 c2)
    have hn : normalized c1 c2 = additive c1 c2 := by
      unfold normalized
      rw [if_neg (not_lt.mpr hscale)]
    unfold mixedColor inRange
    rw [hn]
    dsimp only
    refine ⟨?_, ?_, ?_, ?_, ?_, ?_⟩ <;> omega

/-- Witness for mixedColor_range at concrete colors. -/
theorem mixedColor_range_witness :
    (100 ≤ (additive (163, 70, 200) (51, 255, 120)).1 ∧
      (additive (163, 70, 200) (51, 255, 120)).1 ≤ 510) ∧
    (100 ≤ (additive (163, 70, 200) (51, 255, 120)).2.1 ∧
      (additive (163, 70, 200) (51, 255, 120)).2.1 ≤ 510) ∧
    (100 ≤ (additive (163, 70, 200) (51, 255, 120)).2.2 ∧
      (additive (163, 70, 200) (51, 255, 120)).2.2 ≤ 510) ∧
    inRange 0 255 (mixedColor (163, 70, 200) (51, 255, 120)) :=
  mixedColor_range (163, 70, 200) (51, 255, 120) (by decide) (by decide)

theorem additive_comm (c1 c2 : Color) : additive c1 c2 = additive c2 c1 := by
  simp only [additive, Prod.mk.injEq]
  refine ⟨by ring, by ring, by ring⟩

/-- C6: the subtractive mixing function is commutative on valid channel
triples: it depends on the two input colors only through their channel-wise
sums, which are symmetric. -/
theorem mixedColor_comm (c1 c2 : Color)
    (h1 : inRange 0 255 c1) (h2 : inRange 0 255 c2) :
    mixedColor c1 c2 = mixedColor c2 c1 := by
  unfold mixedColor normalized
  rw [additive_comm]

/-- Witness for mixedColor_comm at concrete colors. -/
theorem mixedColor_comm_witness :
    mixedColor (10, 20, 30) (200, 100, 55) = mixedColor (200, 100, 55) (10, 20, 30) :=
  mixedColor_comm (10, 20, 30) (200, 100, 55) (by decide) (by decide)

/-- C1 counterexample: the code normalizes the channel sums, so worked
example A evaluates to normalized (255, 255, 255) and mixed (0, 0, 0), not
to the normalized (127, 127, 127) and mixed (128, 128, 128) the claim
states (the claim scaled the inputs instead of the sums). -/
theorem worked_example_A_refuted :
    normalized (255, 255, 255) (255, 255, 255) = (255, 255, 255) ∧
    normalized (255, 255, 255) (255, 255, 255) ≠ (127, 127, 127) ∧
    mixedColor (255, 255, 255) (255, 255, 255) = (0, 0, 0) ∧
    mixedColor (255, 255, 255) (255, 255, 255) ≠ (128, 128, 128) := by decide

/-- C1 amended: worked example A with the values the code computes — sums
(510, 510, 510), maximum 510 > 255, scale exactly 0.5, normalized
(255, 255, 255) and mixed (0, 0, 0) — and worked example B exactly as the
claim states it: sums (100, 100, 100), maximum 100 ≤ 255, normalized
unchanged, mixed (155, 155, 155). -/
theorem worked_examples :
    additive (255, 255, 255) (255, 255, 255) = (510, 510, 510) ∧
    maxValue (additive (255, 255, 255) (255, 255, 255)) = 510 ∧
    f64 (qdiv 255 510) = qdiv 1 2 ∧
    normalized (255, 255, 255) (255, 255, 255) = (255, 255, 255) ∧
    mixedColor (255, 255, 255) (255, 255, 255) = (0, 0, 0) ∧
    additive (50, 50, 50) (50, 50, 50) = (100, 100, 100) ∧
    maxValue (additive (50, 50, 50) (50, 50, 50)) = 100 ∧
    normalized (50, 50, 50) (50, 50, 50) = (100, 100, 100) ∧
    mixedColor (50, 50, 50) (50, 50, 50) = (155, 155, 155) := by decide

/-- C5: with hold 5 and transition 25 the sequencer returns exactly 35
frames; frames 0 to 4 all equal the single initial-state render and frames
30 to 34 all equal the single final-state render (the source renders each
hold frame once and appends it repeatedly). -/
theorem animation_frame_schedule (cfg : Config) (td : TaskData) :
    (createMixingAnimationFrames cfg td 5 25).length = 35 ∧
    (∀ i : ℕ, i < 5 →
      (createMixingAnimationFrames cfg td 5 25).getD i default = renderInitialState cfg td) ∧
    (∀ i : ℕ, 30 ≤ i → i < 35 →
      (createMixingAnimationFrames cfg td 5 25).getD i default = renderFinalState cfg td) := by
  refine ⟨?_, ?_, ?_⟩
  · simp [createMixingAnimationFrames]
  · intro i hi
    interval_cases i <;> rfl
  · intro i hi1 hi2
    interval_cases i <;> rfl

/-- Witness for animation_frame_schedule at a concrete configuration. -/
theorem animation_frame_schedule_witness :
    (createMixingAnimationFrames ⟨200, 200, 10, 40, 50, true⟩
      ⟨(163, 163, 163), (163, 163, 163), (0, 0, 0), (70, 100), (130, 100), (100, 100), "default"⟩
      5 25).getD 2 default
      = renderInitialState ⟨200, 200, 10, 40, 50, true⟩
        ⟨(163, 163, 163), (163, 163, 163), (0, 0, 0), (70, 100), (130, 100), (100, 100), "default"⟩ ∧
    (createMixingAnimationFrames ⟨200, 200, 10, 40, 50, true⟩
      ⟨(163, 163, 163), (163, 163, 163), (0, 0, 0), (70, 100), (130, 100), (100, 100), "default"⟩
      5 25).getD 32 default
      = renderFinalState ⟨200, 200, 10, 40, 50, true⟩
        ⟨(163, 163, 163), (163, 163, 163), (0, 0, 0), (70, 100), (130, 100), (100, 100), "default"⟩ :=
  ⟨(animation_frame_schedule ⟨200, 200, 10, 40, 50, true⟩
      ⟨(163, 163, 163), (163, 163, 163), (0, 0, 0), (70, 100), (130, 100), (100, 100), "default"⟩).2.1
      2 (by decide),
   (animation_frame_schedule ⟨200, 200, 10, 40, 50, true⟩
      ⟨(163, 163, 163), (163, 163, 163), (0, 0, 0), (70, 100), (130, 100), (100, 100), "default"⟩).2.2
      32 (by decide) (by decide)⟩

/-- C9: whenever video generation is disabled, the encoder backend is
unavailable, or the encoder returns a falsy result (absent path or empty
string), the produced task pair still carries both rendered still images
and its ground-truth-video field is None; the stills never depend on the
video outcome. -/
theorem video_failure_graceful (cfg : Config) (avail : Bool) (res : Option String)
    (td : TaskData) (tid dom : String) (gp : String → String)
    (h : cfg.generate_videos = false ∨ avail = false ∨ res = none ∨ res = some "") :
    (generateTaskPair cfg avail res td tid dom gp).ground_truth_video = none ∧
    (generateTaskPair cfg avail res td tid dom gp).first_image = renderInitialState cfg td ∧
    (generateTaskPair cfg avail res td tid dom gp).final_image = renderFinalState cfg td := by
  refine ⟨?_, rfl, rfl⟩
  rcases h with h | h | h | h
  · simp [generateTaskPair, h]
  · simp [generateTaskPair, h]
  · simp [generateTaskPair, generateVideo, h]
  · simp [generateTaskPair, generateVideo, h]

/-- Witness for video_failure_graceful with an available encoder returning a
falsy (empty) path. -/
theorem video_failure_graceful_witness :
    (generateTaskPair ⟨200, 200, 10, 40, 50, true⟩ true (some "")
      ⟨(163, 163, 163), (163, 163, 163), (0, 0, 0), (70, 100), (130, 100), (100, 100), "default"⟩
      "t0" "colors" id).ground_truth_video = none ∧
    (generateTaskPair ⟨200, 200, 10, 40, 50, true⟩ true (some "")
      ⟨(163, 163, 163), (163, 163, 163), (0, 0, 0), (70, 100), (130, 100), (100, 100), "default"⟩
      "t0" "colors" id).first_image = renderInitialState ⟨200, 200, 10, 40, 50, true⟩
      ⟨(163, 163, 163), (163, 163, 163), (0, 0, 0), (70, 100), (130, 100), (100, 100), "default"⟩ ∧
    (generateTaskPair ⟨200, 200, 10, 40, 50, true⟩ true (some "")
      ⟨(163, 163, 163), (163, 163, 163), (0, 0, 0), (70, 100), (130, 100), (100, 100), "default"⟩
      "t0" "colors" id).final_image = renderFinalState ⟨200, 200, 10, 40, 50, true⟩
      ⟨(163, 163, 163), (163, 163, 163), (0, 0, 0), (70, 100), (130, 100), (100, 100), "default"⟩ :=
  video_failure_graceful ⟨200, 200, 10, 40, 50, true⟩ true (some "")
    ⟨(163, 163, 163), (163, 163, 163), (0, 0, 0), (70, 100), (130, 100), (100, 100), "default"⟩
    "t0" "colors" id (Or.inr (Or.inr (Or.inr rfl)))

/-- C10: the three fill masks of the overlapping path are pairwise disjoint,
so each pixel is written by at most one of the three masked assignments, and
a pixel outside both disk masks keeps the initial white background value in
the pre-outline array. -/
theorem overlap_masks_disjoint (r : ℤ) (c1 c2 : Color) (b1 b2 : ℚ × ℚ) (p : ℤ × ℤ) :
    (¬ (ball1_only_mask r b1 b2 p ∧ ball2_only_mask r b1 b2 p) ∧
     ¬ (ball1_only_mask r b1 b2 p ∧ overlap_mask r b1 b2 p) ∧
     ¬ (ball2_only_mask r b1 b2 p ∧ overlap_mask r b1 b2 p)) ∧
    (¬ ball_mask r b1 p → ¬ ball_mask r b2 p →
      overlapArray r c1 c2 b1 b2 p = (255, 255, 255)) := by
  constructor
  · unfold ball1_only_mask ball2_only_mask overlap_mask
    exact ⟨fun h => h.1.2 ⟨h.1.1, h.2.1⟩, fun h => h.1.2 h.2, fun h => h.1.2 h.2⟩
  · intro h1 h2
    have hov : ¬ overlap_mask r b1 b2 p := fun h => h1 h.1
    have ho1 : ¬ ball1_only_mask r b1 b2 p := fun h => h1 h.1
    have ho2 : ¬ ball2_only_mask r b1 b2 p := fun h => h2 h.1
    simp only [overlapArray]
    rw [if_neg hov, if_neg ho2, if_neg ho1]

/-- Witness for overlap_masks_disjoint at a pixel far from both disks. -/
theorem overlap_masks_disjoint_witness :
    overlapArray 5 (163, 163, 163) (200, 100, 50) (0, 0) (0, 0) (100, 100)
      = (255, 255, 255) :=
  (overlap_masks_disjoint 5 (163, 163, 163) (200, 100, 50) (0, 0) (0, 0)
    (100, 100)).2 (by decide) (by decide)

/-- C3 amended: the sampler examines at most the first 100 attempts of the
stream and raises nothing; when every attempt fails the distance test it
returns the deterministic fallback layout (one quarter width, three quarter
width, half height), and the fallback layout satisfies the distance
invariant whenever min_distance is at most the fallback separation
3*width//4 - width//4 (it does not for every configuration: see the
counterexample). -/
theorem sampler_bounded_fallback (cfg : Config) (draws : ℕ → (ℤ × ℤ) × (ℤ × ℤ))
    (hrej : ∀ i, i < 100 → acceptAttempt cfg (draws i) = false)
    (hm : 0 ≤ cfg.min_distance)
    (hw : cfg.min_distance ≤ Int.fdiv (3 * cfg.width) 4 - Int.fdiv cfg.width 4) :
    samplePositions cfg draws = fallbackPositions cfg ∧
    cfg.min_distance ^ 2 ≤
      distSq (fallbackPositions cfg).1 (fallbackPositions cfg).2 := by
  have hnone : (List.range 100).find? (fun i => acceptAttempt cfg (draws i)) = none := by
    rw [List.find?_eq_none]
    intro i hi
    rw [hrej i (List.mem_range.mp hi)]
    simp
  constructor
  · unfold samplePositions
    rw [hnone]
  · unfold fallbackPositions distSq
    dsimp only
    have hsq := pow_le_pow_left hm hw 2
    have hz : (Int.fdiv cfg.height 2 - Int.fdiv cfg.height 2) ^ 2 = 0 := by
      rw [sub_self]
      ring
    linarith

/-- Witness for sampler_bounded_fallback: a generous canvas where all 100
attempts collide at one point. -/
theorem sampler_bounded_fallback_witness :
    samplePositions ⟨400, 400, 10, 20, 50, true⟩ (fun _ => ((30, 30), (30, 30)))
      = fallbackPositions ⟨400, 400, 10, 20, 50, true⟩ ∧
    (⟨400, 400, 10, 20, 50, true⟩ : Config).min_distance ^ 2 ≤
      distSq (fallbackPositions ⟨400, 400, 10, 20, 50, true⟩).1
        (fallbackPositions ⟨400, 400, 10, 20, 50, true⟩).2 :=
  sampler_bounded_fallback ⟨400, 400, 10, 20, 50, true⟩ (fun _ => ((30, 30), (30, 30)))
    (by decide) (by decide) (by decide)

/-- C3 counterexample: with canvas width 100 and min_distance 60 every
attempt fails, the sampler returns the fallback layout (25, 50), (75, 50),
and the fallback separation 50 violates the distance invariant, refuting
the unconditional "always satisfies" part of the claim. -/
theorem sampler_fallback_violates_distance :
    samplePositions ⟨100, 100, 10, 5, 60, true⟩ (fun _ => ((10, 10), (10, 10)))
      = ((25, 50), (75, 50)) ∧
    distSq (25, 50) (75, 50) < (⟨100, 100, 10, 5, 60, true⟩ : Config).min_distance ^ 2 := by
  decide

/-- C8 amended: the sampler only enforces distance at least min_distance
(accepted branch) and the fallback separation 3*width//4 - width//4
(fallback branch); the two disks of the produced record are non-overlapping
whenever 2 * radius is at most both of these quantities.  Without that
configuration condition the claim fails: see the counterexample. -/
theorem task_positions_nonoverlap (cfg : Config) (c1 c2 : Color)
    (draws : ℕ → (ℤ × ℤ) × (ℤ × ℤ))
    (hr : 0 ≤ cfg.ball_radius)
    (hmin : 2 * cfg.ball_radius ≤ cfg.min_distance)
    (hfall : 2 * cfg.ball_radius ≤ Int.fdiv (3 * cfg.width) 4 - Int.fdiv cfg.width 4) :
    (2 * cfg.ball_radius) ^ 2 ≤
      distSq (generateTaskData cfg c1 c2 draws).ball1_pos
        (generateTaskData cfg c1 c2 draws).ball2_pos := by
  have h1 : (generateTaskData cfg c1 c2 draws).ball1_pos = (samplePositions cfg draws).1 := rfl
  have h2 : (generateTaskData cfg c1 c2 draws).ball2_pos = (samplePositions cfg draws).2 := rfl
  rw [h1, h2]
  have h2r : (0 : ℤ) ≤ 2 * cfg.ball_radius := by linarith
  unfold samplePositions
  cases hfind : (List.range 100).find? (fun i => acceptAttempt cfg (draws i)) with
  | some i =>
    dsimp only
    have hacc := List.find?_some hfind
    unfold acceptAttempt at hacc
    rw [decide_eq_true_iff] at hacc
    have := pow_le_pow_left h2r hmin 2
    linarith
  | none =>
    dsimp only
    unfold fallbackPositions distSq
    dsimp only
    have hsq := pow_le_pow_left h2r hfall 2
    have hz : (Int.fdiv cfg.height 2 - Int.fdiv cfg.height 2) ^ 2 = 0 := by
      rw [sub_self]
      ring
    linarith

/-- Witness for task_positions_nonoverlap with min_distance at least twice
the radius. -/
theorem task_positions_nonoverlap_witness :
    (2 * (⟨400, 400, 10, 20, 50, true⟩ : Config).ball_radius) ^ 2 ≤
      distSq (generateTaskData ⟨400, 400, 10, 20, 50, true⟩ (100, 100, 100) (120, 120, 120)
          (fun _ => ((100, 100), (200, 100)))).ball1_pos
        (generateTaskData ⟨400, 400, 10, 20, 50, true⟩ (100, 100, 100) (120, 120, 120)
          (fun _ => ((100, 100), (200, 100)))).ball2_pos :=
  task_positions_nonoverlap ⟨400, 400, 10, 20, 50, true⟩ (100, 100, 100) (120, 120, 120)
    (fun _ => ((100, 100), (200, 100))) (by decide) (by decide) (by decide)

/-- C8 counterexample: with radius 60 but min_distance 50 the sampler
accepts the pair (100, 100), (151, 100) at distance 51, yet the disks
overlap because 51 is smaller than 2 * radius = 120, so the held initial
frames can show intersecting disks. -/
theorem accepted_positions_can_overlap :
    (⟨400, 400, 10, 60, 50, true⟩ : Config).min_distance ^ 2 ≤ distSq (100, 100) (151, 100) ∧
    distSq (generateTaskData ⟨400, 400, 10, 60, 50, true⟩ (100, 100, 100) (100, 100, 100)
        (fun _ => ((100, 100), (151, 100)))).ball1_pos
      (generateTaskData ⟨400, 400, 10, 60, 50, true⟩ (100, 100, 100) (100, 100, 100)
        (fun _ => ((100, 100), (151, 100)))).ball2_pos
      < (2 * (⟨400, 400, 10, 60, 50, true⟩ : Config).ball_radius) ^ 2 := by
  decide

/-- At any pixel of the overlap mask the pre-outline array holds the value
gridMixed color1 color2: the additive grids carry the constant channel sums
there, so max_per_pixel, scale_factor and the normalized channels reduce to
the closed form of gridMixed, independently of the pixel. -/
theorem overlapArray_at_overlap (r : ℤ) (c1 c2 : Color) (b1 b2 : ℚ × ℚ) (p : ℤ × ℤ)
    (hov : overlap_mask r b1 b2 p) :
    overlapArray r c1 c2 b1 b2 p = gridMixed c1 c2 := by
  simp only [overlapArray, hov, if_true, gridMixed, gridNormalizedChan, maxValue, additive]

/-- A pixel outside both disk masks keeps the white background in the
pre-outline overlap array. -/
theorem overlapArray_outside (r : ℤ) (c1 c2 : Color) (b1 b2 : ℚ × ℚ) (p : ℤ × ℤ)
    (h1 : ¬ ball_mask r b1 p) (h2 : ¬ ball_mask r b2 p) :
    overlapArray r c1 c2 b1 b2 p = (255, 255, 255) := by
  have hov : ¬ overlap_mask r b1 b2 p := fun h => h1 h.1
  have ho1 : ¬ ball1_only_mask r b1 b2 p := fun h => h1 h.1
  have ho2 : ¬ ball2_only_mask r b1 b2 p := fun h => h2 h.1
  simp only [overlapArray]
  rw [if_neg hov, if_neg ho2, if_neg ho1]

/-- C2 amended: in any overlapping-path frame every pixel of the computed
intersection receives one and the same RGB value, namely the float32 grid
mix gridMixed(color1, color2); that value is however not bit-identical to
the binary64 per-task mixed color on all inputs with channels in [50, 255]
(see the counterexample), so the claim holds with the per-task color
replaced by the float32 grid color. -/
theorem overlap_region_uniform (r : ℤ) (c1 c2 : Color) (b1 b2 : ℚ × ℚ) (p q : ℤ × ℤ)
    (h1 : inRange 50 255 c1) (h2 : inRange 50 255 c2)
    (hp : overlap_mask r b1 b2 p) (hq : overlap_mask r b1 b2 q) :
    overlapArray r c1 c2 b1 b2 p = gridMixed c1 c2 ∧
    overlapArray r c1 c2 b1 b2 p = overlapArray r c1 c2 b1 b2 q := by
  refine ⟨overlapArray_at_overlap r c1 c2 b1 b2 p hp, ?_⟩
  rw [overlapArray_at_overlap r c1 c2 b1 b2 p hp, overlapArray_at_overlap r c1 c2 b1 b2 q hq]

/-- Witness for overlap_region_uniform: two pixels of a concrete
intersection. -/
theorem overlap_region_uniform_witness :
    overlapArray 40 (163, 163, 163) (200, 100, 50) (100, 100) (110, 100) (105, 100)
      = gridMixed (163, 163, 163) (200, 100, 50) ∧
    overlapArray 40 (163, 163, 163) (200, 100, 50) (100, 100) (110, 100) (105, 100)
      = overlapArray 40 (163, 163, 163) (200, 100, 50) (100, 100) (110, 100) (105, 101) :=
  overlap_region_uniform 40 (163, 163, 163) (200, 100, 50) (100, 100) (110, 100)
    (105, 100) (105, 101) (by decide) (by decide) (by decide) (by decide)

/-- C2 counterexample: for color1 = color2 = (163, 163, 163) the transition
frame at progress 1.0 (an overlapping-path frame, both centers at the
midpoint) paints the center pixel with the float32 grid value (1, 1, 1),
while the per-task binary64 mixed color of the record is (0, 0, 0): the
per-pixel float32 computation and the once-per-task computation are not
bit-identical. -/
theorem overlap_color_not_bit_identical :
    (let cfg : Config := ⟨200, 200, 10, 40, 50, true⟩
     let td := generateTaskData cfg (163, 163, 163) (163, 163, 163)
       (fun _ => ((70, 100), (130, 100)))
     transitionFrame cfg td 25 24 (100, 100) = (1, 1, 1) ∧
     td.mixed_color = (0, 0, 0) ∧
     transitionFrame cfg td 25 24 (100, 100) ≠ td.mixed_color) := by decide

theorem rhe_intCast (n : ℤ) : rhe ((n : ℤ) : ℚ) = n := by
  rw [rhe_def]
  simp only [Int.floor_intCast, sub_self]
  norm_num

theorem rnd_zero (p : ℕ) : rnd p 0 = 0 := by
  rw [rnd_def]
  simp

theorem qexp_eq_of (q : ℚ) (e : ℤ) (hq : q ≠ 0)
    (h1 : (2 : ℚ) ^ e ≤ |q|) (h2 : |q| < 2 ^ (e + 1)) : qexp q = e := by
  obtain ⟨g1, g2⟩ := qexp_spec q hq
  by_contra hne
  rcases lt_or_gt_of_ne hne with hlt | hgt
  · have h3 : (2 : ℚ) ^ (qexp q + 1) ≤ 2 ^ e := zpow_le_zpow_right₀ (by norm_num) (by omega)
    linarith
  · have h3 : (2 : ℚ) ^ (e + 1) ≤ 2 ^ qexp q := zpow_le_zpow_right₀ (by norm_num) (by omega)
    linarith

theorem rnd_dyadic (p : ℕ) (hp : 0 < p) (n k : ℤ) (hn : |n| < 2 ^ p) :
    rnd p ((n : ℚ) * 2 ^ k) = (n : ℚ) * 2 ^ k := by
  rcases eq_or_ne n 0 with h0 | h0
  · subst h0
    simp [rnd_zero]
  · have h2Q : (0 : ℚ) < 2 := by norm_num
    have h2ne : (2 : ℚ) ≠ 0 := by norm_num
    have hkpos : (0 : ℚ) < 2 ^ k := zpow_pos h2Q k
    have hq0 : ((n : ℚ) * 2 ^ k) ≠ 0 :=
      mul_ne_zero (Int.cast_ne_zero.mpr h0) (ne_of_gt hkpos)
    have hna : 0 < n.natAbs := Int.natAbs_pos.mpr h0
    obtain ⟨hj1, hj2⟩ := natLog2_spec n.natAbs hna
    set j := natLog2 n.natAbs with hjdef
    have hjQ1 : (2 : ℚ) ^ (j : ℤ) ≤ (n.natAbs : ℚ) := by
      rw [zpow_natCast]
      exact_mod_cast hj1
    have hjQ2 : (n.natAbs : ℚ) < (2 : ℚ) ^ ((j : ℤ) + 1) := by
      have he : ((j : ℤ) + 1) = ((j + 1 : ℕ) : ℤ) := by push_cast; ring
      rw [he, zpow_natCast]
      exact_mod_cast hj2
    have habs : |(n : ℚ) * 2 ^ k| = (n.natAbs : ℚ) * 2 ^ k := by
      rw [abs_mul, abs_of_pos hkpos, Int.cast_natAbs, Int.cast_abs]
    have hqe : qexp ((n : ℚ) * 2 ^ k) = k + j := by
      apply qexp_eq_of _ _ hq0
      · rw [habs, show k + (j : ℤ) = (j : ℤ) + k by ring, zpow_add₀ h2ne]
        exact mul_le_mul_of_nonneg_right hjQ1 (le_of_lt hkpos)
      · rw [habs, show k + (j : ℤ) + 1 = ((j : ℤ) + 1) + k by ring, zpow_add₀ h2ne]
        exact mul_lt_mul_of_pos_right hjQ2 hkpos
    have hjp : (j : ℤ) ≤ (p : ℤ) - 1 := by
      have hnab : n.natAbs < 2 ^ p := by
        have : (n.natAbs : ℤ) < 2 ^ p := by
          rw [← Int.abs_eq_natAbs]
          exact hn
        exact_mod_cast this
      have : 2 ^ j < 2 ^ p := lt_of_le_of_lt hj1 hnab
      have hjp' : j < p := (Nat.pow_lt_pow_iff_right (by norm_num)).mp this
      omega
    rw [rnd_def, if_neg hq0, hqe]
    have harg : |(n : ℚ) * 2 ^ k| / 2 ^ (k + (j : ℤ) - p + 1)
        = ((n.natAbs * 2 ^ (p - 1 - j) : ℕ) : ℚ) := by
      rw [habs]
      rw [div_eq_iff (ne_of_gt (zpow_pos h2Q _))]
      push_cast
      have hexp : ((p - 1 - j : ℕ) : ℤ) + (k + (j : ℤ) - p + 1) = k := by omega
      rw [← zpow_natCast (2 : ℚ) (p - 1 - j), mul_assoc, ← zpow_add₀ h2ne, hexp]
    rw [harg]
    have hrhe : rhe ((n.natAbs * 2 ^ (p - 1 - j) : ℕ) : ℚ)
        = ((n.natAbs * 2 ^ (p - 1 - j) : ℕ) : ℤ) := by
      have hc : ((n.natAbs * 2 ^ (p - 1 - j) : ℕ) : ℚ)
          = (((n.natAbs * 2 ^ (p - 1 - j) : ℕ) : ℤ) : ℚ) := by norm_cast
      rw [hc, rhe_intCast]
    rw [hrhe]
    have hmulback : (((n.natAbs * 2 ^ (p - 1 - j) : ℕ) : ℤ) : ℚ) * 2 ^ (k + (j : ℤ) - p + 1)
        = (n.natAbs : ℚ) * 2 ^ k := by
      push_cast
      have hexp : ((p - 1 - j : ℕ) : ℤ) + (k + (j : ℤ) - p + 1) = k := by omega
      rw [← zpow_natCast (2 : ℚ) (p - 1 - j), mul_assoc, ← zpow_add₀ h2ne, hexp,
        Int.cast_natAbs, Int.cast_abs]
    rcases lt_or_le ((n : ℚ) * 2 ^ k) 0 with hneg | hpos
    · rw [if_pos hneg, mul_assoc, hmulback]
      have : (n.natAbs : ℚ) * 2 ^ k = -((n : ℚ) * 2 ^ k) := by
        rw [← habs, abs_of_neg hneg]
      rw [this]
      ring
    · rw [if_neg (not_lt.mpr hpos), mul_assoc, hmulback]
      have : (n.natAbs : ℚ) * 2 ^ k = (n : ℚ) * 2 ^ k := by
        rw [← habs, abs_of_nonneg hpos]
      rw [this]
      ring

theorem f64_int (n : ℤ) (h : |n| < 2 ^ 53) : f64 ((n : ℤ) : ℚ) = (n : ℚ) := by
  have := rnd_dyadic 53 (by norm_num) n 0 h
  simpa using this

theorem f64_half (n : ℤ) (h : |n| < 2 ^ 53) : f64 ((n : ℚ) / 2) = (n : ℚ) / 2 := by
  have h2 := rnd_dyadic 53 (by norm_num) n (-1) h
  have he : ((n : ℚ)) * 2 ^ (-1 : ℤ) = (n : ℚ) / 2 := by
    rw [zpow_neg, zpow_one]
    ring
  rw [he] at h2
  exact h2

theorem f64_quarter (n : ℤ) (h : |n| < 2 ^ 53) : f64 ((n : ℚ) / 4) = (n : ℚ) / 4 := by
  have h2 := rnd_dyadic 53 (by norm_num) n (-2) h
  have he : ((n : ℚ)) * 2 ^ (-2 : ℤ) = (n : ℚ) / 4 := by
    rw [zpow_neg]
    norm_num
    ring
  rw [he] at h2
  exact h2

theorem f64_zero : f64 0 = 0 := rnd_zero 53

theorem midCoord_eq (a b : ℤ) (h : |a + b| < 2 ^ 53) :
    midCoord a b = ((a + b : ℤ) : ℚ) / 2 := by
  unfold midCoord
  rw [qdiv_eq]
  exact f64_half _ h

theorem lerp64_one (s u : ℤ) (h1 : |u - 2 * s| < 2 ^ 53) (h2 : |u| < 2 ^ 53) :
    lerp64 s ((u : ℚ) / 2) 1 = (u : ℚ) / 2 := by
  unfold lerp64
  rw [qsub_eq]
  have hsub : (u : ℚ) / 2 - (s : ℚ) = ((u - 2 * s : ℤ) : ℚ) / 2 := by
    push_cast
    ring
  rw [hsub, f64_half _ h1, qmul_eq, mul_one, f64_half _ h1, qadd_eq]
  have hadd : (s : ℚ) + ((u - 2 * s : ℤ) : ℚ) / 2 = ((u : ℤ) : ℚ) / 2 := by
    push_cast
    ring
  rw [hadd, f64_half _ h2]

theorem centerDistSq_self (b : ℚ × ℚ) : centerDistSq b b = 0 := by
  simp [centerDistSq, qsub_eq, qmul_eq, qadd_eq, f64_zero]

theorem pixDistSq_half (m n x y : ℤ)
    (hm : |2 * x - m| < 2 ^ 26) (hn : |2 * y - n| < 2 ^ 26) :
    pixDistSq ((m : ℚ) / 2, (n : ℚ) / 2) (x, y)
      = (((2 * x - m) ^ 2 + (2 * y - n) ^ 2 : ℤ) : ℚ) / 4 := by
  unfold pixDistSq
  dsimp only
  rw [qsub_eq, qsub_eq]
  have hxq : (x : ℚ) - (m : ℚ) / 2 = ((2 * x - m : ℤ) : ℚ) / 2 := by
    push_cast
    ring
  have hyq : (y : ℚ) - (n : ℚ) / 2 = ((2 * y - n : ℤ) : ℚ) / 2 := by
    push_cast
    ring
  have hm53 : |2 * x - m| < 2 ^ 53 := lt_trans hm (by norm_num)
  have hn53 : |2 * y - n| < 2 ^ 53 := lt_trans hn (by norm_num)
  rw [hxq, hyq, f64_half _ hm53, f64_half _ hn53, qmul_eq, qmul_eq]
  have hx2 : ((2 * x - m : ℤ) : ℚ) / 2 * (((2 * x - m : ℤ) : ℚ) / 2)
      = (((2 * x - m) ^ 2 : ℤ) : ℚ) / 4 := by
    push_cast
    ring
  have hy2 : ((2 * y - n : ℤ) : ℚ) / 2 * (((2 * y - n : ℤ) : ℚ) / 2)
      = (((2 * y - n) ^ 2 : ℤ) : ℚ) / 4 := by
    push_cast
    ring
  have hxb : |(2 * x - m) ^ 2| < 2 ^ 53 := by
    rw [abs_pow]
    nlinarith [abs_nonneg (2 * x - m)]
  have hyb : |(2 * y - n) ^ 2| < 2 ^ 53 := by
    rw [abs_pow]
    nlinarith [abs_nonneg (2 * y - n)]
  rw [hx2, hy2, f64_quarter _ hxb, f64_quarter _ hyb, qadd_eq]
  have hsum : (((2 * x - m) ^ 2 : ℤ) : ℚ) / 4 + (((2 * y - n) ^ 2 : ℤ) : ℚ) / 4
      = (((2 * x - m) ^ 2 + (2 * y - n) ^ 2 : ℤ) : ℚ) / 4 := by
    push_cast
    ring
  have hsb : |(2 * x - m) ^ 2 + (2 * y - n) ^ 2| < 2 ^ 53 := by
    have hx2b : (2 * x - m) ^ 2 < 2 ^ 52 := by
      nlinarith [abs_nonneg (2 * x - m), sq_abs (2 * x - m)]
    have hy2b : (2 * y - n) ^ 2 < 2 ^ 52 := by
      nlinarith [abs_nonneg (2 * y - n), sq_abs (2 * y - n)]
    have hx0 : 0 ≤ (2 * x - m) ^ 2 := sq_nonneg _
    have hy0 : 0 ≤ (2 * y - n) ^ 2 := sq_nonneg _
    rw [abs_of_nonneg (by linarith)]
    norm_num
    linarith
  rw [hsum, f64_quarter _ hsb]

theorem ball_mask_iff_inDiskQ (r m n x y : ℤ)
    (hm : |2 * x - m| < 2 ^ 26) (hn : |2 * y - n| < 2 ^ 26) :
    ball_mask r ((m : ℚ) / 2, (n : ℚ) / 2) (x, y) ↔
      inDiskQ r ((m : ℚ) / 2, (n : ℚ) / 2) (x, y) := by
  unfold ball_mask inDiskQ
  rw [pixDistSq_half m n x y hm hn]
  dsimp only
  rw [qsub_eq, qsub_eq, qmul_eq, qmul_eq, qadd_eq]
  have heq : ((x : ℚ) - (m : ℚ) / 2) * ((x : ℚ) - (m : ℚ) / 2)
      + ((y : ℚ) - (n : ℚ) / 2) * ((y : ℚ) - (n : ℚ) / 2)
      = (((2 * x - m) ^ 2 + (2 * y - n) ^ 2 : ℤ) : ℚ) / 4 := by
    push_cast
    ring
  rw [heq]

theorem samplePositions_cases (cfg : Config) (draws : ℕ → (ℤ × ℤ) × (ℤ × ℤ)) :
    samplePositions cfg draws = fallbackPositions cfg ∨
    ∃ i, samplePositions cfg draws = draws i := by
  unfold samplePositions
  cases hfind : (List.range 100).find? (fun i => acceptAttempt cfg (draws i)) with
  | none => left; rfl
  | some i => right; exact ⟨i, rfl⟩

theorem samplePositions_bounded (cfg : Config) (draws : ℕ → (ℤ × ℤ) × (ℤ × ℤ)) (B : ℤ)
    (hw : 0 ≤ cfg.width ∧ cfg.width ≤ B) (hh : 0 ≤ cfg.height ∧ cfg.height ≤ B)
    (hd : ∀ i, coordBounded B (draws i)) :
    coordBounded B (samplePositions cfg draws) := by
  rcases samplePositions_cases cfg draws with h | ⟨i, h⟩
  · rw [h]
    unfold fallbackPositions coordBounded
    dsimp only
    have e1 : Int.fdiv cfg.width 4 = cfg.width / 4 := Int.fdiv_eq_ediv _ (by norm_num)
    have e2 : Int.fdiv cfg.height 2 = cfg.height / 2 := Int.fdiv_eq_ediv _ (by norm_num)
    have e3 : Int.fdiv (3 * cfg.width) 4 = 3 * cfg.width / 4 := Int.fdiv_eq_ediv _ (by norm_num)
    rw [e1, e2, e3]
    refine ⟨?_, ?_, ?_, ?_, ?_, ?_, ?_, ?_⟩ <;> omega
  · rw [h]
    exact hd i

theorem progress_25_24 : progress 25 24 = 1 := by decide

/-- C4 amended: at progress 1.0 of the transition both interpolated centers
land exactly on the midpoint (the binary64 interpolation is exact there for
canvas coordinates up to 2^20) and the overlapping path is selected; the
resulting frame agrees with the final hold frame at every canvas pixel
provided the float32 grid mix equals the binary64 scalar mix for the task
colors.  That hypothesis is necessary: see the counterexample. -/
theorem final_hold_matches_transition (cfg : Config) (c1 c2 : Color)
    (draws : ℕ → (ℤ × ℤ) × (ℤ × ℤ)) (x y : ℤ)
    (hagree : gridMixed c1 c2 = mixedColor c1 c2)
    (hrpos : 0 < cfg.ball_radius)
    (hw : 0 ≤ cfg.width ∧ cfg.width ≤ 2 ^ 20)
    (hh : 0 ≤ cfg.height ∧ cfg.height ≤ 2 ^ 20)
    (hd : ∀ i, coordBounded (2 ^ 20) (draws i))
    (hx : 0 ≤ x ∧ x ≤ 2 ^ 20) (hy : 0 ≤ y ∧ y ≤ 2 ^ 20) :
    transitionFrame cfg (generateTaskData cfg c1 c2 draws) 25 24 (x, y)
      = renderFinalState cfg (generateTaskData cfg c1 c2 draws) (x, y) := by
  obtain ⟨p1x, p1xB, p1y, p1yB, p2x, p2xB, p2y, p2yB⟩ :=
    samplePositions_bounded cfg draws (2 ^ 20) hw hh hd
  set P := samplePositions cfg draws with hP
  set ux := P.1.1 + P.2.1 with hux
  set uy := P.1.2 + P.2.2 with huy
  have htd1 : (generateTaskData cfg c1 c2 draws).ball1_pos = P.1 := rfl
  have htd2 : (generateTaskData cfg c1 c2 draws).ball2_pos = P.2 := rfl
  have htdf : (generateTaskData cfg c1 c2 draws).final_pos
      = (midCoord P.1.1 P.2.1, midCoord P.1.2 P.2.2) := rfl
  have htdc1 : (generateTaskData cfg c1 c2 draws).color1 = c1 := rfl
  have htdc2 : (generateTaskData cfg c1 c2 draws).color2 = c2 := rfl
  have htdmix : (generateTaskData cfg c1 c2 draws).mixed_color = mixedColor c1 c2 := rfl
  have hmx : midCoord P.1.1 P.2.1 = ((ux : ℤ) : ℚ) / 2 :=
    midCoord_eq _ _ (abs_lt.mpr ⟨by omega, by omega⟩)
  have hmy : midCoord P.1.2 P.2.2 = ((uy : ℤ) : ℚ) / 2 :=
    midCoord_eq _ _ (abs_lt.mpr ⟨by omega, by omega⟩)
  have hl1x : lerp64 P.1.1 ((ux : ℚ) / 2) 1 = (ux : ℚ) / 2 :=
    lerp64_one _ _ (abs_lt.mpr ⟨by omega, by omega⟩) (abs_lt.mpr ⟨by omega, by omega⟩)
  have hl1y : lerp64 P.1.2 ((uy : ℚ) / 2) 1 = (uy : ℚ) / 2 :=
    lerp64_one _ _ (abs_lt.mpr ⟨by omega, by omega⟩) (abs_lt.mpr ⟨by omega, by omega⟩)
  have hl2x : lerp64 P.2.1 ((ux : ℚ) / 2) 1 = (ux : ℚ) / 2 :=
    lerp64_one _ _ (abs_lt.mpr ⟨by omega, by omega⟩) (abs_lt.mpr ⟨by omega, by omega⟩)
  have hl2y : lerp64 P.2.2 ((uy : ℚ) / 2) 1 = (uy : ℚ) / 2 :=
    lerp64_one _ _ (abs_lt.mpr ⟨by omega, by omega⟩) (abs_lt.mpr ⟨by omega, by omega⟩)
  have hiff := ball_mask_iff_inDiskQ cfg.ball_radius ux uy x y
    (abs_lt.mpr ⟨by omega, by omega⟩) (abs_lt.mpr ⟨by omega, by omega⟩)
  have hcond : (0 : ℚ) < (((2 * cfg.ball_radius) ^ 2 : ℤ) : ℚ) := by
    have h2 : (0 : ℤ) < (2 * cfg.ball_radius) ^ 2 := pow_pos (by linarith) 2
    exact_mod_cast h2
  simp only [transitionFrame, progress_25_24, htd1, htd2, htdf, htdc1, htdc2, ballCurrent,
    hmx, hmy, hl1x, hl1y, hl2x, hl2y, centerDistSq_self, if_pos hcond]
  simp only [renderFinalState, htdf, htdmix, hmx, hmy]
  by_cases hdisk : inDiskQ cfg.ball_radius ((ux : ℚ) / 2, (uy : ℚ) / 2) (x, y)
  · have hmask : ball_mask cfg.ball_radius ((ux : ℚ) / 2, (uy : ℚ) / 2) (x, y) :=
      hiff.mpr hdisk
    rw [overlapArray_at_overlap _ _ _ _ _ _ ⟨hmask, hmask⟩, if_pos hdisk, hagree]
  · have hmask : ¬ ball_mask cfg.ball_radius ((ux : ℚ) / 2, (uy : ℚ) / 2) (x, y) :=
      fun h => hdisk (hiff.mp h)
    rw [overlapArray_outside _ _ _ _ _ _ hmask hmask, if_neg hdisk]

/-- C4 counterexample: for color1 = color2 = (185, 185, 185) the final hold
frame fills the disk with the binary64 mixed color (1, 1, 1), while the
transition frame at progress 1.0 fills the coinciding disks with the float32
grid value (0, 0, 0); the two frames differ at the shared center pixel. -/
theorem final_hold_differs_from_transition :
    (let cfg : Config := ⟨200, 200, 10, 40, 50, true⟩
     let td := generateTaskData cfg (185, 185, 185) (185, 185, 185)
       (fun _ => ((70, 100), (130, 100)))
     transitionFrame cfg td 25 24 (100, 100) = (0, 0, 0) ∧
     renderFinalState cfg td (100, 100) = (1, 1, 1) ∧
     transitionFrame cfg td 25 24 (100, 100) ≠ renderFinalState cfg td (100, 100)) := by
  decide

/-- Witness for final_hold_matches_transition at colors where the float32
and binary64 mixes agree. -/
theorem final_hold_matches_transition_witness :
    transitionFrame ⟨200, 200, 10, 40, 50, true⟩
      (generateTaskData ⟨200, 200, 10, 40, 50, true⟩ (170, 170, 170) (170, 170, 170)
        (fun _ => ((70, 100), (130, 100)))) 25 24 (100, 100)
    = renderFinalState ⟨200, 200, 10, 40, 50, true⟩
      (generateTaskData ⟨200, 200, 10, 40, 50, true⟩ (170, 170, 170) (170, 170, 170)
        (fun _ => ((70, 100), (130, 100)))) (100, 100) :=
  final_hold_matches_transition ⟨200, 200, 10, 40, 50, true⟩ (170, 170, 170) (170, 170, 170)
    (fun _ => ((70, 100), (130, 100))) 100 100 (by decide) (by decide) (by decide) (by decide)
    (fun _ => show coordBounded (2 ^ 20) ((70, 100), (130, 100)) by decide)
    (by decide) (by decide)
